import Mathlib

/-!
Verification development for the plinky_convert repository.

The definitions below are a shallow embedding of the byte-level engine in
src/wav2uf2.py (shared with src/uf22wav.py): the UF2 block container codec,
the flash-page journal checksum and slot resolver, the sample-record patcher,
the waveform thumbnail derivation and the WAV-source validation.  Byte buffers
are modelled as `List Nat` (one entry per byte); Python `struct` errors and
raised `ValueError`s are modelled with `Except String` / `Option`.
-/

set_option maxRecDepth 100000

namespace PlinkyConvert

/-! Byte-level primitives. -/

/-- Byte lookup, `data[i]` on an in-range index. -/
def byteAt (bs : List Nat) (i : Nat) : Nat := bs.getD i 0

/-- Little-endian 16-bit read, struct format code H. -/
def readU16 (bs : List Nat) (off : Nat) : Nat :=
  byteAt bs off + 256 * byteAt bs (off + 1)

/-- Little-endian 32-bit read, struct format code I. -/
def readU32 (bs : List Nat) (off : Nat) : Nat :=
  byteAt bs off + 256 * byteAt bs (off + 1) + 65536 * byteAt bs (off + 2) +
    16777216 * byteAt bs (off + 3)

/-- Little-endian 16-bit write, struct format code H. -/
def pack16 (x : Nat) : List Nat := [x % 256, x / 256 % 256]

/-- Little-endian 32-bit write, struct format code I. -/
def pack32 (x : Nat) : List Nat :=
  [x % 256, x / 256 % 256, x / 65536 % 256, x / 16777216 % 256]

/-- Little-endian signed 32-bit write, struct format code i
(two's complement; struct.pack raises outside the signed range, callers
of the journal updater stay inside it). -/
def pack32i (x : Int) : List Nat := pack32 ((x % 4294967296).toNat)

/-- Chunking worker: take n elements, recurse on the rest.  The fuel
counter, always called with the list length, keeps the recursion
structural; each step of the slicing loop consumes at least one element
whenever n is nonzero. -/
def chunkGo (n : Nat) : Nat → List Nat → List (List Nat)
  | _, [] => []
  | 0, _ :: _ => []
  | fuel + 1, b :: bs => (b :: bs).take n :: chunkGo n fuel ((b :: bs).drop n)

/-- Python slicing into fixed-size chunks,
`[bs[i:i+n] for i in range(0, len(bs), n)]`; the final chunk may be short. -/
def chunkList (n : Nat) (bs : List Nat) : List (List Nat) :=
  chunkGo n bs.length bs

/-! Constants from src/wav2uf2.py. -/

def UF2_MAGIC_START_0 : Nat := 0x0a324655
def UF2_MAGIC_START_1 : Nat := 0x9e5d5157
def UF2_MAGIC_END : Nat := 0x0ab16f30
def UF2_FLAGS : Nat := 0
def UF2_PAYLOAD_SIZE : Nat := 0x100
def UF2_PAYLOAD_OFFSET : Nat := 32
def UF2_FAMILY_ID : Nat := 0
def UF2_BLOCK_SIZE : Nat := 512

def SAMPLE_COUNT : Nat := 0x200000
def SAMPLE_WAVEFORM_BLOCKSIZE : Nat := 1024

def PRESET_PAGE_SIZE : Nat := 2048
def PRESET_PAGE_FOOTER_SIZE : Nat := 8
def PRESET_NUM_PRESETS : Nat := 32
def PRESET_NUM_PATTERNS : Nat := 24
def PRESET_VERSION : Nat := 2
def PRESET_PATTERNS_IDX : Nat := PRESET_NUM_PRESETS
def PRESET_SAMPLES_IDX : Nat := PRESET_PATTERNS_IDX + 4 * PRESET_NUM_PATTERNS

/-! UF2 decoding, read_uf2 in src/wav2uf2.py and src/uf22wav.py. -/

def errUnpack : String := "unpack_from requires a buffer of at least 32 bytes"
def errNotContiguous : String := "UF2 data is not contiguous."
def errPackRange : String := "argument out of range"

/-- Payload slice of one block, `block[32 : 32 + payload_size]`. -/
def payloadOf (block : List Nat) : List Nat :=
  (block.drop UF2_PAYLOAD_OFFSET).take (readU32 block 16)

/-- Concatenation of the payload slices of all blocks. -/
def joinPayloads (blocks : List (List Nat)) : List Nat :=
  (blocks.map payloadOf).flatten

/-- The block loop of read_uf2.  For each block it unpacks the eight
32-bit header words (struct.error when the block holds fewer than 32 bytes),
checks the target address against the previous address plus this block's
payload size, and collects `block[32 : 32 + payload_size]`. -/
def read_blocks : List (List Nat) → Option Nat → Except String (List Nat)
  | [], _ => .ok []
  | block :: rest, previous_address =>
    if block.length < 32 then .error errUnpack
    else
      match previous_address with
      | some p =>
        if readU32 block 12 ≠ p + readU32 block 16 then .error errNotContiguous
        else (read_blocks rest (some (readU32 block 12))).map
          (fun tail => payloadOf block ++ tail)
      | none =>
        (read_blocks rest (some (readU32 block 12))).map
          (fun tail => payloadOf block ++ tail)

/-- read_uf2 on an in-memory image: split into 512-byte blocks and run the
block loop with no previous address. -/
def read_uf2 (content : List Nat) : Except String (List Nat) :=
  read_blocks (chunkList UF2_BLOCK_SIZE content) none

/-- Address-contiguity of a block list as the decoder checks it, threading
the previously seen target address. -/
def chainOK : Option Nat → List (List Nat) → Prop
  | _, [] => True
  | none, block :: rest => chainOK (some (readU32 block 12)) rest
  | some p, block :: rest =>
    readU32 block 12 = p + readU32 block 16 ∧ chainOK (some (readU32 block 12)) rest

/-- Target address stored in block i of an image. -/
def targetAt (content : List Nat) (i : Nat) : Nat :=
  readU32 ((chunkList UF2_BLOCK_SIZE content).getD i []) 12

/-- Payload size stored in block i of an image. -/
def sizeAt (content : List Nat) (i : Nat) : Nat :=
  readU32 ((chunkList UF2_BLOCK_SIZE content).getD i []) 16

/-! UF2 encoding, write_uf2 in src/wav2uf2.py. -/

/-- One 512-byte output block of write_uf2: the eight header words, the
payload chunk, 220 zero bytes of padding and the trailing magic. -/
def mkBlock (chunk : List Nat) (target i n : Nat) : List Nat :=
  pack32 UF2_MAGIC_START_0 ++ pack32 UF2_MAGIC_START_1 ++ pack32 UF2_FLAGS ++
  pack32 target ++ pack32 UF2_PAYLOAD_SIZE ++ pack32 i ++ pack32 n ++
  pack32 UF2_FAMILY_ID ++ chunk ++ List.replicate 220 0 ++ pack32 UF2_MAGIC_END

/-- The block loop of write_uf2; struct.pack raises when a header word does
not fit in 32 bits. -/
def write_uf2_blocks : List (List Nat) → Nat → Nat → Nat → Except String (List Nat)
  | [], _, _, _ => .ok []
  | chunk :: rest, target, i, n =>
    if target < 4294967296 ∧ i < 4294967296 ∧ n < 4294967296 then
      (write_uf2_blocks rest (target + UF2_PAYLOAD_SIZE) (i + 1) n).map
        (fun tail => mkBlock chunk target i n ++ tail)
    else .error errPackRange

/-- write_uf2 producing the image bytes: split the data into 256-byte
payload chunks and emit one block per chunk at consecutive addresses. -/
def write_uf2 (data : List Nat) (target_address : Nat) : Except String (List Nat) :=
  let blocks := chunkList UF2_PAYLOAD_SIZE data
  write_uf2_blocks blocks target_address 0 blocks.length

/-! Journal checksum, calculate_page_crc in src/wav2uf2.py. -/

/-- calculate_page_crc: rolling hash with seed 123 over the 2040 page-body
bytes at the page offset (the loop range stops before the 8-byte footer). -/
def calculate_page_crc (data : List Nat) (offset : Nat) : Nat :=
  (List.range (PRESET_PAGE_SIZE - PRESET_PAGE_FOOTER_SIZE)).foldl
    (fun hash i => (hash * 23 + byteAt data (offset + i)) % 65536) 123

/-- The checksum exactly as the specification words it: seed 123, then for
each byte b in sequence accumulator = (accumulator * 23 + b) mod 65536.
Kept separate from calculate_page_crc so the two can be compared. -/
def checksumSpec (bs : List Nat) : Nat :=
  bs.foldl (fun acc b => (acc * 23 + b) % 65536) 123

/-! Page footer and slot resolver, read_page_footer / find_sample_offset. -/

structure PageFooter where
  idx : Nat
  version : Nat
  crc : Nat
  seq : Nat
deriving Repr, DecidableEq

/-- read_page_footer: struct '<BBHI' at the final 8 bytes of the page. -/
def read_page_footer (data : List Nat) (offset : Nat) : PageFooter :=
  { idx := byteAt data (offset + (PRESET_PAGE_SIZE - PRESET_PAGE_FOOTER_SIZE))
  , version := byteAt data (offset + (PRESET_PAGE_SIZE - PRESET_PAGE_FOOTER_SIZE) + 1)
  , crc := readU16 data (offset + (PRESET_PAGE_SIZE - PRESET_PAGE_FOOTER_SIZE) + 2)
  , seq := readU32 data (offset + (PRESET_PAGE_SIZE - PRESET_PAGE_FOOTER_SIZE) + 4) }

/-- The page offsets visited by find_sample_offset,
`range(0, len(data), PRESET_PAGE_SIZE)`. -/
def pageOffsets (data : List Nat) : List Nat :=
  (List.range ((data.length + (PRESET_PAGE_SIZE - 1)) / PRESET_PAGE_SIZE)).map
    (fun k => k * PRESET_PAGE_SIZE)

/-- Loop body of find_sample_offset: keep the page whose footer matches the
slot id and version and whose sequence number beats the running maximum. -/
def findStep (data : List Nat) (preset_idx : Nat) (acc : Nat × Nat) (o : Nat) : Nat × Nat :=
  if (read_page_footer data o).idx = preset_idx ∧
      (read_page_footer data o).version = PRESET_VERSION then
    if acc.1 < (read_page_footer data o).seq then ((read_page_footer data o).seq, o) else acc
  else acc

/-- find_sample_offset: scan the image in page strides starting from
cur_seq = 0, offset = 0, and return the final offset. -/
def find_sample_offset (data : List Nat) (index : Nat) : Nat :=
  ((pageOffsets data).foldl (findStep data (PRESET_SAMPLES_IDX + index)) (0, 0)).2

/-! Journal record patching, update_sample_page in src/wav2uf2.py. -/

/-- Overwrite of a byte range, struct.pack_into into a bytearray. -/
def writeBytes (dst : List Nat) (offset : Nat) (src : List Nat) : List Nat :=
  dst.take offset ++ src ++ dst.drop (offset + src.length)

/-- The 1060 bytes written by struct.pack_into with format '<1024s8ii':
the waveform padded or truncated to exactly 1024 bytes, the eight splits and
the sample length as signed 32-bit words. -/
def sampleRecordBytes (sample_len : Int) (waveform : List Nat) (splits : List Int) : List Nat :=
  (waveform.take 1024 ++ List.replicate (1024 - waveform.length) 0) ++
  ((splits.take 8).map pack32i).flatten ++ pack32i sample_len

/-- update_sample_page: copy the image, locate the slot page, write the
record fields there, recompute the page checksum over the updated body and
write it into the footer checksum field. -/
def update_sample_page (data : List Nat) (index : Nat) (sample_len : Int)
    (waveform : List Nat) (splits : List Int) : List Nat :=
  let offset := find_sample_offset data index
  let ba := writeBytes data offset (sampleRecordBytes sample_len waveform splits)
  let crc := calculate_page_crc ba offset
  writeBytes ba (offset + (PRESET_PAGE_SIZE - PRESET_PAGE_FOOTER_SIZE) + 2) (pack16 crc)

/-! Waveform thumbnail, create_waveform in src/wav2uf2.py. -/

/-- Absolute value of the signed 16-bit sample with the given little-endian
bytes, struct '<h' followed by abs. -/
def int16Abs (lo hi : Nat) : Nat :=
  let v := (lo + 256 * hi) % 65536
  if v < 32768 then v else 65536 - v

/-- Peak scan of one window: maximum absolute sample over the byte pairs.
struct.unpack_from raises when a lone trailing byte is left, hence Option.
The Python loop folds max from the left; max is commutative and
associative, so folding from the right is the same value. -/
def peakOfBlock : List Nat → Option Nat
  | [] => some 0
  | [_] => none
  | lo :: hi :: rest => (peakOfBlock rest).map (fun p => max p (int16Abs lo hi))

/-- Total version of the peak scan, used to state properties. -/
def peakF : List Nat → Nat
  | [] => 0
  | [_] => 0
  | lo :: hi :: rest => max (peakF rest) (int16Abs lo hi)

/-- Packing loop of create_waveform: two consecutive 4-bit levels per byte,
`level[2k] + 16 * level[2k+1]`, each level clamped to [0, 15]; a lone
trailing level makes waveform[i + 1] raise, hence Option. -/
def packPairs : List Nat → Option (List Nat)
  | [] => some []
  | [_] => none
  | s0 :: s1 :: rest =>
    (packPairs rest).map (fun ps => (max (min s0 15) 0 + 16 * max (min s1 15) 0) :: ps)

/-- create_waveform: split the sample bytes into windows of 1024 samples
(2048 bytes), quantize each window peak to floor(peak / 1024) — the Python
float division by 1024 is exact for every 16-bit magnitude, so natural
division models it — pack pairs of levels, and place the packed bytes at
the start of a zero-filled 1024-byte buffer.  struct.pack_into raises when
more than 2048 windows are produced. -/
def create_waveform (data : List Nat) : Option (List Nat) :=
  let blocks := chunkList (SAMPLE_WAVEFORM_BLOCKSIZE * 2) data
  do
    let waveform ← blocks.mapM (fun b => (peakOfBlock b).map (fun p => p / 1024))
    let packed ← packPairs waveform
    if packed.length ≤ 1024 then some (packed ++ List.replicate (1024 - packed.length) 0)
    else none

/-- Total version of the packing loop, defined on even-length input. -/
def packF : List Nat → List Nat
  | [] => []
  | [_] => []
  | s0 :: s1 :: rest => (max (min s0 15) 0 + 16 * max (min s1 15) 0) :: packF rest

/-- Quantized 4-bit level of a window peak: floor(peak / 1024) clamped
to [0, 15]. -/
def quantLevel (p : Nat) : Nat := max (min (p / 1024) 15) 0

/-- Peak of window j of the sample bytes (0 past the last window). -/
def peakAt (data : List Nat) (j : Nat) : Nat :=
  peakF ((chunkList (SAMPLE_WAVEFORM_BLOCKSIZE * 2) data).getD j [])

/-! WAV source validation, read_wav in src/wav2uf2.py.  The wave-module
handle is modelled by the parameters read_wav consults plus the raw frame
bytes the reader returns. -/

structure WavFile where
  nchannels : Nat
  sampwidth : Nat
  framerate : Nat
  nframes : Nat
  comptype : String
  frames : List Nat

def wavCompNone : String := "NONE"
def errMono : String := "Only mono wav files are supported"
def err16bit : String := "Only 16bit wav files are supported"
def err32kHz : String := "Only 32kHz wav files are supported"
def errMaxSamples : String := "Maximum samples allowed"
def errCompressed : String := "Only uncompressed wav files are supported"

/-- The two padding bytes appended per missing frame. -/
def SAMPLE_PADDING : List Nat := [255, 255]

/-- read_wav: validate the stream parameters in source order, then pad the
frame bytes with SAMPLE_PADDING repeated once per missing frame and return
the padded buffer together with the original frame count. -/
def read_wav (f : WavFile) : Except String (List Nat × Nat) :=
  if f.nchannels ≠ 1 then .error errMono
  else if f.sampwidth ≠ 2 then .error err16bit
  else if f.framerate ≠ 32000 then .error err32kHz
  else if SAMPLE_COUNT < f.nframes then .error errMaxSamples
  else if f.comptype ≠ wavCompNone then .error errCompressed
  else .ok (f.frames ++ (List.replicate (SAMPLE_COUNT - f.nframes) SAMPLE_PADDING).flatten,
            f.nframes)

/-! Concrete images used to instantiate the theorems below. -/

/-- Two-block image whose second block is contiguous with the first when
measured with its own payload size (0 + 256 = 256) but not when measured
with the first block's payload size (0 + 100 = 100 ≠ 256). -/
def imgPrevSize : List Nat :=
  (List.replicate 16 0 ++ pack32 100 ++ List.replicate 492 0) ++
  (List.replicate 12 0 ++ pack32 256 ++ pack32 256 ++ List.replicate 492 0)

/-- Two-block image whose second block's target address 7 differs from
0 + payload size 0, a genuinely non-contiguous image. -/
def imgNC : List Nat :=
  List.replicate 512 0 ++ (List.replicate 12 0 ++ pack32 7 ++ List.replicate 496 0)

/-- Contiguous pair of blocks: first target 0, second target 8 with payload
size 8. -/
def blkW0 : List Nat := List.replicate 12 0 ++ pack32 0 ++ pack32 3 ++ List.replicate 492 0
def blkW1 : List Nat := List.replicate 12 0 ++ pack32 8 ++ pack32 8 ++ List.replicate 492 0
/-- Replacement for blkW0 with the same payload size 3 but target 5. -/
def blkW2 : List Nat := List.replicate 12 9 ++ pack32 5 ++ pack32 3 ++ List.replicate 492 9

/-- Two-block image with garbage everywhere except consistent addresses:
second target 16 = first target 0 + second payload size 16. -/
def blkG0 : List Nat := List.replicate 12 170 ++ pack32 0 ++ pack32 7 ++ List.replicate 492 1
def blkG1 : List Nat := List.replicate 12 187 ++ pack32 16 ++ pack32 16 ++ List.replicate 492 2

/-- A flash page with a zero body and the given footer fields (slot id,
schema version, checksum 0, sequence number). -/
def mkPage (idx version seq : Nat) : List Nat :=
  List.replicate 2040 0 ++ ([idx, version, 0, 0] ++ pack32 seq)

/-- Four-page journal image mirroring the resolver example of the
specification: slot-128 pages with sequence numbers 3, 7 and 5 plus an
unrelated slot-127 page with the even higher sequence number 9. -/
def img5 : List Nat :=
  mkPage 128 2 3 ++ mkPage 128 2 7 ++ mkPage 127 2 9 ++ mkPage 128 2 5

/-! General lemmas about chunking. -/

theorem chunkGo_fuel (n : Nat) (hn : n ≠ 0) :
    ∀ (fuel1 fuel2 : Nat) (bs : List Nat), bs.length ≤ fuel1 → bs.length ≤ fuel2 →
      chunkGo n fuel1 bs = chunkGo n fuel2 bs := by
  intro fuel1
  induction fuel1 with
  | zero =>
    intro fuel2 bs h1 _
    have : bs = [] := by
      cases bs with
      | nil => rfl
      | cons x xs => simp at h1
    subst this
    cases fuel2 <;> rfl
  | succ k ih =>
    intro fuel2 bs h1 h2
    cases bs with
    | nil => cases fuel2 <;> rfl
    | cons b tl =>
      cases fuel2 with
      | zero => simp at h2
      | succ k2 =>
        simp only [chunkGo]
        congr 1
        apply ih
        · simp only [List.length_drop, List.length_cons] at *
          omega
        · simp only [List.length_drop, List.length_cons] at *
          omega

theorem chunkList_nil (n : Nat) : chunkList n [] = [] := rfl

theorem chunkList_cons (n : Nat) (bs : List Nat) (hn : n ≠ 0) (hbs : bs ≠ []) :
    chunkList n bs = bs.take n :: chunkList n (bs.drop n) := by
  cases bs with
  | nil => exact absurd rfl hbs
  | cons b tl =>
    show chunkGo n (tl.length + 1) (b :: tl) = _
    simp only [chunkGo]
    congr 1
    apply chunkGo_fuel n hn
    · simp only [List.length_drop, List.length_cons]; omega
    · exact le_rfl

theorem chunkList_block (n : Nat) (xs ys : List Nat) (hx : xs.length = n) (hn : 0 < n) :
    chunkList n (xs ++ ys) = xs :: chunkList n ys := by
  have hxs : xs ≠ [] := by
    intro h; subst h; simp at hx; omega
  rw [chunkList_cons n (xs ++ ys) (by omega) (by simp [hxs])]
  rw [← hx, List.take_left, List.drop_left]

theorem chunkList_full_aux (n : Nat) :
    ∀ (fuel : Nat) (bs : List Nat), bs.length ≤ fuel → bs.length % n = 0 →
      ∀ b ∈ chunkList n bs, b.length = n := by
  intro fuel
  induction fuel with
  | zero =>
    intro bs hf _ b hb
    have : bs = [] := by
      cases bs with
      | nil => rfl
      | cons x xs => simp at hf
    subst this
    simp [chunkList_nil] at hb
  | succ k ih =>
    intro bs hf hm b hb
    by_cases hn : n = 0
    · subst hn
      simp at hm
      subst hm
      simp [chunkList_nil] at hb
    by_cases hbs : bs = []
    · subst hbs; simp [chunkList_nil] at hb
    have hpos : 0 < bs.length := List.length_pos.mpr hbs
    have hge : n ≤ bs.length := by
      rcases Nat.lt_or_ge bs.length n with hlt | hge2
      · rw [Nat.mod_eq_of_lt hlt] at hm; omega
      · exact hge2
    rw [chunkList_cons n bs hn hbs] at hb
    rcases List.mem_cons.mp hb with hb | hb
    · subst hb; simp [List.length_take]; omega
    · apply ih (bs.drop n) _ _ b hb
      · simp [List.length_drop]; omega
      · simp only [List.length_drop]
        have h1 : (bs.length - n) + n = bs.length := by omega
        have h2 : ((bs.length - n) + n) % n = (bs.length - n) % n := Nat.add_mod_right _ _
        rw [h1] at h2
        omega

theorem chunkList_full (n : Nat) (bs : List Nat) (hm : bs.length % n = 0) :
    ∀ b ∈ chunkList n bs, b.length = n :=
  chunkList_full_aux n bs.length bs le_rfl hm

theorem chunkList_short_aux (n : Nat) (hn : n ≠ 0) :
    ∀ (fuel : Nat) (bs : List Nat), bs.length ≤ fuel → bs.length % n ≠ 0 →
      ∃ b ∈ chunkList n bs, b.length = bs.length % n := by
  intro fuel
  induction fuel with
  | zero =>
    intro bs hf hm
    have : bs = [] := by
      cases bs with
      | nil => rfl
      | cons x xs => simp at hf
    subst this
    simp at hm
  | succ k ih =>
    intro bs hf hm
    by_cases hbs : bs = []
    · subst hbs; simp at hm
    rcases Nat.lt_or_ge bs.length n with hlt | hge
    · refine ⟨bs.take n, ?_, ?_⟩
      · rw [chunkList_cons n bs hn hbs]; simp
      · rw [Nat.mod_eq_of_lt hlt]
        simp [List.length_take]; omega
    · have hmod : (bs.length - n) % n = bs.length % n := by
        have h1 : (bs.length - n) + n = bs.length := by omega
        have h2 : ((bs.length - n) + n) % n = (bs.length - n) % n := Nat.add_mod_right _ _
        rw [h1] at h2; omega
      obtain ⟨b, hb, hlen⟩ := ih (bs.drop n) (by simp [List.length_drop]; omega)
        (by simp only [List.length_drop]; omega)
      refine ⟨b, ?_, ?_⟩
      · rw [chunkList_cons n bs hn hbs]
        exact List.mem_cons_of_mem _ hb
      · simpa [List.length_drop, hmod] using hlen

theorem chunkList_flatten_aux (n : Nat) (hn : n ≠ 0) :
    ∀ (fuel : Nat) (bs : List Nat), bs.length ≤ fuel → (chunkList n bs).flatten = bs := by
  intro fuel
  induction fuel with
  | zero =>
    intro bs hf
    have : bs = [] := by
      cases bs with
      | nil => rfl
      | cons x xs => simp at hf
    subst this; simp [chunkList_nil]
  | succ k ih =>
    intro bs hf
    by_cases hbs : bs = []
    · subst hbs; simp [chunkList_nil]
    rw [chunkList_cons n bs hn hbs]
    have hpos : 0 < bs.length := List.length_pos.mpr hbs
    have hnpos : 0 < n := by omega
    simp only [List.flatten_cons]
    rw [ih (bs.drop n) (by simp [List.length_drop]; omega)]
    exact List.take_append_drop n bs

theorem chunkList_flatten (n : Nat) (bs : List Nat) (hn : n ≠ 0) :
    (chunkList n bs).flatten = bs :=
  chunkList_flatten_aux n hn bs.length bs le_rfl

theorem flatten_const_length (n : Nat) (cl : List (List Nat)) (h : ∀ c ∈ cl, c.length = n) :
    cl.flatten.length = n * cl.length := by
  induction cl with
  | nil => simp
  | cons c rest ih =>
    simp only [List.flatten_cons, List.length_append, List.length_cons]
    rw [h c (by simp), ih (fun x hx => h x (by simp [hx]))]
    ring

/-! Characterization of the decode loop. -/

theorem read_blocks_ok (bl : List (List Nat)) :
    ∀ prev, (∀ b ∈ bl, 32 ≤ b.length) → chainOK prev bl →
      read_blocks bl prev = .ok (joinPayloads bl) := by
  induction bl with
  | nil => intro prev _ _; rfl
  | cons b rest ih =>
    intro prev hb hc
    have hb0 : ¬ b.length < 32 := by have := hb b (by simp); omega
    have hrest : ∀ x ∈ rest, 32 ≤ x.length := fun x hx => hb x (by simp [hx])
    cases prev with
    | none =>
      have hc2 : chainOK (some (readU32 b 12)) rest := hc
      simp only [read_blocks, if_neg hb0]
      rw [ih _ hrest hc2]
      simp [joinPayloads, Except.map]
    | some p =>
      have hc1 : readU32 b 12 = p + readU32 b 16 := hc.1
      have hc2 : chainOK (some (readU32 b 12)) rest := hc.2
      simp only [read_blocks, if_neg hb0]
      rw [if_neg (by omega), ih _ hrest hc2]
      simp [joinPayloads, Except.map]

theorem read_blocks_notContiguous (bl : List (List Nat)) :
    ∀ prev, (∀ b ∈ bl, 32 ≤ b.length) → ¬ chainOK prev bl →
      read_blocks bl prev = .error errNotContiguous := by
  induction bl with
  | nil => intro prev _ hc; cases prev <;> exact absurd trivial hc
  | cons b rest ih =>
    intro prev hb hc
    have hb0 : ¬ b.length < 32 := by have := hb b (by simp); omega
    have hrest : ∀ x ∈ rest, 32 ≤ x.length := fun x hx => hb x (by simp [hx])
    cases prev with
    | none =>
      have hc2 : ¬ chainOK (some (readU32 b 12)) rest := hc
      simp only [read_blocks, if_neg hb0]
      rw [ih _ hrest hc2]
      rfl
    | some p =>
      by_cases heq : readU32 b 12 = p + readU32 b 16
      · have hc2 : ¬ chainOK (some (readU32 b 12)) rest := by
          intro h; exact hc ⟨heq, h⟩
        simp only [read_blocks, if_neg hb0]
        rw [if_neg (by omega), ih _ hrest hc2]
        rfl
      · simp only [read_blocks, if_neg hb0]
        rw [if_pos (by omega)]

theorem read_blocks_short (bl : List (List Nat)) :
    ∀ prev, (∃ b ∈ bl, b.length < 32) → ∃ e, read_blocks bl prev = .error e := by
  induction bl with
  | nil => intro prev h; simp at h
  | cons b rest ih =>
    intro prev ⟨x, hx, hlen⟩
    by_cases hb : b.length < 32
    · exact ⟨errUnpack, by simp only [read_blocks, if_pos hb]⟩
    · have hxr : x ∈ rest := by
        rcases List.mem_cons.mp hx with rfl | h
        · exact absurd hlen hb
        · exact h
      obtain ⟨e, he⟩ := ih (some (readU32 b 12)) ⟨x, hxr, hlen⟩
      cases prev with
      | none =>
        refine ⟨e, ?_⟩
        simp only [read_blocks, if_neg hb]
        rw [he]; rfl
      | some p =>
        by_cases hcg : readU32 b 12 ≠ p + readU32 b 16
        · exact ⟨errNotContiguous, by simp only [read_blocks, if_neg hb]; rw [if_pos hcg]⟩
        · refine ⟨e, ?_⟩
          simp only [read_blocks, if_neg hb]
          rw [if_neg hcg, he]; rfl

/-! The contiguity chain in terms of block indices. -/

theorem chainOK_some_iff (p : Nat) (bl : List (List Nat)) :
    chainOK (some p) bl ↔
      (∀ _ : bl ≠ [], readU32 (bl.getD 0 []) 12 = p + readU32 (bl.getD 0 []) 16) ∧
        chainOK none bl := by
  cases bl with
  | nil => simp [chainOK]
  | cons b rest =>
    constructor
    · rintro ⟨h1, h2⟩
      exact ⟨fun _ => by simpa using h1, h2⟩
    · rintro ⟨h1, h2⟩
      exact ⟨by simpa using h1 (by simp), h2⟩

theorem chainOK_none_iff (bl : List (List Nat)) :
    chainOK none bl ↔
      ∀ i, i + 1 < bl.length →
        readU32 (bl.getD (i + 1) []) 12 =
          readU32 (bl.getD i []) 12 + readU32 (bl.getD (i + 1) []) 16 := by
  induction bl with
  | nil =>
    constructor
    · intro _ i hi; simp at hi
    · intro _; trivial
  | cons b rest ih =>
    have hstep : chainOK none (b :: rest) ↔ chainOK (some (readU32 b 12)) rest := Iff.rfl
    rw [hstep, chainOK_some_iff, ih]
    constructor
    · rintro ⟨h0, hrest⟩ i hi
      cases i with
      | zero =>
        have hne : rest ≠ [] := by
          intro h; subst h; simp at hi
        simpa [List.getD_cons_succ, List.getD_cons_zero] using h0 hne
      | succ j =>
        have hj : j + 1 < rest.length := by simp at hi; omega
        simpa [List.getD_cons_succ] using hrest j hj
    · intro h
      refine ⟨?_, ?_⟩
      · intro hne
        have h1 : 0 + 1 < (b :: rest).length := by
          simp only [List.length_cons]
          have := List.length_pos.mpr hne
          omega
        simpa [List.getD_cons_succ, List.getD_cons_zero] using h 0 h1
      · intro j hj
        have hj2 : (j + 1) + 1 < (b :: rest).length := by simp at hj ⊢; omega
        simpa [List.getD_cons_succ] using h (j + 1) hj2

theorem getD_set_self {α : Type} (l : List α) (i : Nat) (a d : α) (h : i < l.length) :
    (l.set i a).getD i d = a := by
  rw [List.getD_eq_getElem?_getD, List.getElem?_set]
  simp [h]

theorem getD_set_ne {α : Type} (l : List α) (i j : Nat) (a d : α) (h : i ≠ j) :
    (l.set i a).getD j d = l.getD j d := by
  rw [List.getD_eq_getElem?_getD, List.getElem?_set, if_neg h, ← List.getD_eq_getElem?_getD]

/-! Claim C3: decode on inputs whose length is not a multiple of 512. -/

/-- Claim C3 counterexample: a 32-byte input, whose length is not a multiple
of the 512-byte block size, decodes successfully (to the empty payload,
since the stored payload size is 0) instead of failing. -/
theorem read_uf2_length_claim_counterexample :
    (List.replicate 32 0).length % UF2_BLOCK_SIZE ≠ 0 ∧
      read_uf2 (List.replicate 32 0) = .ok [] := by
  constructor
  · decide
  · rfl

/-- Claim C3 (amended): decoding an input whose length mod 512 is nonzero
and below 32 always fails, because the trailing partial block is too short
for even the block header to be unpacked. -/
theorem read_uf2_short_tail_fails (bs : List Nat)
    (h1 : bs.length % UF2_BLOCK_SIZE ≠ 0) (h2 : bs.length % UF2_BLOCK_SIZE < 32) :
    ∃ e, read_uf2 bs = .error e := by
  obtain ⟨b, hb, hlen⟩ :=
    chunkList_short_aux UF2_BLOCK_SIZE (by decide) bs.length bs le_rfl h1
  exact read_blocks_short _ none ⟨b, hb, by omega⟩

/-- Witness for the amended claim C3 at the concrete 16-byte input. -/
theorem read_uf2_short_tail_fails_witness :
    (List.replicate 16 0).length % UF2_BLOCK_SIZE ≠ 0 ∧
      (List.replicate 16 0).length % UF2_BLOCK_SIZE < 32 ∧
      ∃ e, read_uf2 (List.replicate 16 0) = .error e :=
  ⟨by decide, by decide,
    read_uf2_short_tail_fails (List.replicate 16 0) (by decide) (by decide)⟩

/-! Claim C10: on well-formed lengths, address contiguity is the only thing
decode checks; magics, flags, indices, counts and family ids are ignored. -/

/-- Claim C10: for an image whose length is a multiple of 512, if the stored
target addresses are contiguous with respect to each block's own payload
size then decode succeeds and returns the concatenated payload slices, with
no constraint on any other header field; and the only error decode can ever
produce on such an image is the NonContiguous one. -/
theorem read_uf2_checks_only_contiguity (content : List Nat)
    (h : content.length % UF2_BLOCK_SIZE = 0) :
    ((∀ i, i < (chunkList UF2_BLOCK_SIZE content).length - 1 →
        targetAt content (i + 1) = targetAt content i + sizeAt content (i + 1)) →
      read_uf2 content = .ok (joinPayloads (chunkList UF2_BLOCK_SIZE content))) ∧
    (∀ e, read_uf2 content = .error e → e = errNotContiguous) := by
  have hfull : ∀ b ∈ chunkList UF2_BLOCK_SIZE content, 32 ≤ b.length := by
    intro b hb
    have hx := chunkList_full UF2_BLOCK_SIZE content h b hb
    simp [UF2_BLOCK_SIZE] at hx
    omega
  constructor
  · intro hc
    exact read_blocks_ok _ none hfull
      ((chainOK_none_iff _).mpr (fun i hi => hc i (by omega)))
  · intro e he
    by_cases hc : chainOK none (chunkList UF2_BLOCK_SIZE content)
    · rw [read_uf2, read_blocks_ok _ none hfull hc] at he
      cases he
    · rw [read_uf2, read_blocks_notContiguous _ none hfull hc] at he
      injection he with he2
      exact he2.symm

/-- Witness for claim C10: a two-block image with garbage magic, flag,
index, count and family bytes but contiguous addresses decodes to the
payload slices selected by each block's stored payload size. -/
theorem read_uf2_checks_only_contiguity_witness :
    read_uf2 (blkG0 ++ blkG1) = .ok (List.replicate 7 1 ++ List.replicate 16 2) := by
  have h := (read_uf2_checks_only_contiguity (blkG0 ++ blkG1) (by decide)).1 (by decide)
  rw [h]
  rfl

/-! Claim C2: which address check decode actually performs. -/

/-- Claim C2 counterexample: in imgPrevSize the second block's target
address differs from the first block's target address plus the FIRST
block's payload size, so the claim predicts a NonContiguous failure, yet
decode succeeds, because the code adds the SECOND block's payload size. -/
theorem read_uf2_contiguity_claim_counterexample :
    targetAt imgPrevSize 1 ≠ targetAt imgPrevSize 0 + sizeAt imgPrevSize 0 ∧
      read_uf2 imgPrevSize = .ok (List.replicate 356 0) := by
  constructor
  · decide
  · rfl

/-- Claim C2 (amended): for every image whose length is a multiple of 512,
decode fails — and then always with the NonContiguous error — exactly when
some block other than the first has a target address different from the
previous block's target address plus THAT block's own payload size; and in
an image of at least two contiguous blocks, replacing any one block by a
block with the same stored payload size but a different stored target
address makes decode fail with the NonContiguous error. -/
theorem read_uf2_contiguity_characterization :
    (∀ content : List Nat, content.length % UF2_BLOCK_SIZE = 0 →
      (read_uf2 content = .error errNotContiguous ↔
        ∃ i, i < (chunkList UF2_BLOCK_SIZE content).length - 1 ∧
          targetAt content (i + 1) ≠ targetAt content i + sizeAt content (i + 1))) ∧
    (∀ (bl : List (List Nat)) (i : Nat) (b2 : List Nat),
      (∀ b ∈ bl, 32 ≤ b.length) → 32 ≤ b2.length → 2 ≤ bl.length → i < bl.length →
      (∀ j, j < bl.length - 1 →
        readU32 (bl.getD (j + 1) []) 12 =
          readU32 (bl.getD j []) 12 + readU32 (bl.getD (j + 1) []) 16) →
      readU32 b2 12 ≠ readU32 (bl.getD i []) 12 →
      readU32 b2 16 = readU32 (bl.getD i []) 16 →
      read_blocks (bl.set i b2) none = .error errNotContiguous) := by
  constructor
  · intro content h
    have hfull : ∀ b ∈ chunkList UF2_BLOCK_SIZE content, 32 ≤ b.length := by
      intro b hb
      have hx := chunkList_full UF2_BLOCK_SIZE content h b hb
      simp [UF2_BLOCK_SIZE] at hx
      omega
    constructor
    · intro he
      by_cases hc : chainOK none (chunkList UF2_BLOCK_SIZE content)
      · rw [read_uf2, read_blocks_ok _ none hfull hc] at he
        cases he
      · rw [chainOK_none_iff] at hc
        push_neg at hc
        obtain ⟨i, hi, hne⟩ := hc
        exact ⟨i, by omega, hne⟩
    · rintro ⟨i, hi, hne⟩
      have hc : ¬ chainOK none (chunkList UF2_BLOCK_SIZE content) := by
        rw [chainOK_none_iff]
        intro hall
        exact hne (hall i (by omega))
      rw [read_uf2]
      exact read_blocks_notContiguous _ none hfull hc
  · intro bl i b2 hbl hb2 h2 hi hchain hne hsz
    have hfull2 : ∀ b ∈ bl.set i b2, 32 ≤ b.length := by
      intro b hb
      rcases List.mem_or_eq_of_mem_set hb with hb | hb
      · exact hbl b hb
      · subst hb; exact hb2
    have hlen : (bl.set i b2).length = bl.length := List.length_set bl i b2
    have hc : ¬ chainOK none (bl.set i b2) := by
      rw [chainOK_none_iff]
      intro hall
      rcases Nat.eq_zero_or_pos i with hz | hp
      · subst hz
        have h01 := hall 0 (by omega)
        rw [getD_set_self bl 0 b2 [] (by omega), getD_set_ne bl 0 1 b2 [] (by omega)] at h01
        have horig := hchain 0 (by omega)
        simp only [Nat.zero_add] at h01 horig
        omega
      · have h01 := hall (i - 1) (by omega)
        have hsucc : i - 1 + 1 = i := by omega
        rw [hsucc, getD_set_self bl i b2 [] (by omega),
          getD_set_ne bl i (i - 1) b2 [] (by omega)] at h01
        have horig := hchain (i - 1) (by omega)
        rw [hsucc] at horig
        omega
    exact read_blocks_notContiguous _ none hfull2 hc

/-- Witness for the amended claim C2: the first part identifies the
violating index in the concrete non-contiguous image imgNC, the second
part perturbs the first block of the contiguous pair blkW0, blkW1. -/
theorem read_uf2_contiguity_characterization_witness :
    read_uf2 imgNC = .error errNotContiguous ∧
      read_blocks ([blkW0, blkW1].set 0 blkW2) none = .error errNotContiguous := by
  constructor
  · exact (read_uf2_contiguity_characterization.1 imgNC (by decide)).mpr
      ⟨0, by decide, by decide⟩
  · exact read_uf2_contiguity_characterization.2 [blkW0, blkW1] 0 blkW2
      (by decide) (by decide) (by decide) (by decide) (by decide) (by decide) (by decide)

/-! Header fields of an encoded block. -/

theorem mkBlock_target (chunk : List Nat) (t i n : Nat) (ht : t < 4294967296) :
    readU32 (mkBlock chunk t i n) 12 = t := by
  have h : readU32 (mkBlock chunk t i n) 12 =
      t % 256 + 256 * (t / 256 % 256) + 65536 * (t / 65536 % 256) +
        16777216 * (t / 16777216 % 256) := rfl
  omega

theorem mkBlock_size (chunk : List Nat) (t i n : Nat) :
    readU32 (mkBlock chunk t i n) 16 = 256 := rfl

theorem mkBlock_length (chunk : List Nat) (t i n : Nat) (hc : chunk.length = 256) :
    (mkBlock chunk t i n).length = 512 := by
  simp [mkBlock, pack32, hc]

theorem mkBlock_payload (chunk : List Nat) (t i n : Nat) (hc : chunk.length = 256) :
    payloadOf (mkBlock chunk t i n) = chunk := by
  have h2 : (mkBlock chunk t i n).drop 32 =
      chunk ++ List.replicate 220 0 ++ pack32 UF2_MAGIC_END := rfl
  simp only [payloadOf, UF2_PAYLOAD_OFFSET, mkBlock_size, h2]
  rw [List.append_assoc, ← hc, List.take_left]

/-! Round trip of the encode and decode loops. -/

theorem write_read_blocks (cl : List (List Nat)) :
    ∀ (t i n : Nat) (prev : Option Nat),
      (∀ c ∈ cl, c.length = 256) →
      t + 256 * cl.length ≤ 4294967296 →
      i + cl.length ≤ n → n < 4294967296 →
      (prev = none ∨ ∃ p, prev = some p ∧ p + 256 = t) →
      ∃ img, write_uf2_blocks cl t i n = .ok img ∧
        read_blocks (chunkList UF2_BLOCK_SIZE img) prev = .ok cl.flatten := by
  induction cl with
  | nil =>
    intro t i n prev _ _ _ _ _
    exact ⟨[], rfl, by cases prev <;> rfl⟩
  | cons c rest ih =>
    intro t i n prev hlen ht hi hn hprev
    have hc : c.length = 256 := hlen c (by simp)
    simp only [List.length_cons] at ht hi
    have ht1 : t < 4294967296 := by omega
    have hi1 : i < 4294967296 := by omega
    obtain ⟨img, hw, hr⟩ := ih (t + 256) (i + 1) n (some t)
      (fun x hx => hlen x (by simp [hx])) (by omega) (by omega) hn
      (Or.inr ⟨t, rfl, rfl⟩)
    refine ⟨mkBlock c t i n ++ img, ?_, ?_⟩
    · show write_uf2_blocks (c :: rest) t i n = _
      simp only [write_uf2_blocks, UF2_PAYLOAD_SIZE]
      rw [if_pos ⟨ht1, hi1, hn⟩, hw]
      rfl
    · rw [chunkList_block UF2_BLOCK_SIZE _ _
        (by rw [mkBlock_length c t i n hc]; rfl) (by simp [UF2_BLOCK_SIZE])]
      have hlen512 : ¬ (mkBlock c t i n).length < 32 := by
        rw [mkBlock_length c t i n hc]; omega
      have hflat : (c :: rest).flatten = c ++ rest.flatten := rfl
      cases prev with
      | none =>
        simp only [read_blocks, if_neg hlen512, mkBlock_target c t i n ht1, hr,
          Except.map, mkBlock_payload c t i n hc, hflat]
      | some p =>
        obtain ⟨q, hq, hq2⟩ : ∃ q, some q = some p ∧ q + 256 = t := by
          rcases hprev with h | ⟨q, hq1, hq2⟩
          · cases h
          · exact ⟨q, by rw [← hq1], hq2⟩
        have hqp : q = p := by injection hq
        subst hqp
        simp only [read_blocks, if_neg hlen512, mkBlock_target c t i n ht1,
          mkBlock_size c t i n]
        rw [if_neg (by omega), hr]
        simp only [Except.map, mkBlock_payload c t i n hc, hflat]

/-- Claim C1 counterexample: at base address 2^32 the encoder itself raises
struct.error (the target address does not fit in 32 bits), so the round
trip does not return the original buffer even though its length is a
multiple of 256. -/
theorem uf2_round_trip_claim_counterexample :
    (List.replicate 256 0).length % UF2_PAYLOAD_SIZE = 0 ∧
      (write_uf2 (List.replicate 256 0) 4294967296).bind read_uf2 ≠
        Except.ok (List.replicate 256 0) := by
  refine ⟨by decide, ?_⟩
  have hev : (write_uf2 (List.replicate 256 0) 4294967296).bind read_uf2 =
      Except.error errPackRange := rfl
  rw [hev]
  exact fun h => Except.noConfusion h

/-- Claim C1 (amended): for every byte buffer whose length is a multiple of
the 256-byte chunk size and every base address low enough that all block
target addresses fit in 32 bits, decoding the encoded image returns the
original buffer. -/
theorem uf2_round_trip (data : List Nat) (base : Nat)
    (h : data.length % UF2_PAYLOAD_SIZE = 0) (hb : base + data.length ≤ 4294967296) :
    (write_uf2 data base).bind read_uf2 = Except.ok data := by
  have hfull : ∀ c ∈ chunkList UF2_PAYLOAD_SIZE data, c.length = 256 := by
    intro c hcm
    have hx := chunkList_full UF2_PAYLOAD_SIZE data h c hcm
    simpa [UF2_PAYLOAD_SIZE] using hx
  have hflat : (chunkList UF2_PAYLOAD_SIZE data).flatten = data :=
    chunkList_flatten _ _ (by simp [UF2_PAYLOAD_SIZE])
  have hlen : data.length = 256 * (chunkList UF2_PAYLOAD_SIZE data).length := by
    have hx := flatten_const_length 256 (chunkList UF2_PAYLOAD_SIZE data) hfull
    rw [hflat] at hx
    exact hx
  obtain ⟨img, hw, hr⟩ := write_read_blocks (chunkList UF2_PAYLOAD_SIZE data)
    base 0 (chunkList UF2_PAYLOAD_SIZE data).length none hfull (by omega) (by omega)
    (by omega) (Or.inl rfl)
  show (write_uf2_blocks (chunkList UF2_PAYLOAD_SIZE data) base 0
    (chunkList UF2_PAYLOAD_SIZE data).length).bind read_uf2 = Except.ok data
  rw [hw]
  show read_uf2 img = Except.ok data
  rw [read_uf2, hr, hflat]

/-- Witness for the amended claim C1 at a concrete one-chunk buffer. -/
theorem uf2_round_trip_witness :
    (List.replicate 256 7).length % UF2_PAYLOAD_SIZE = 0 ∧
      0 + (List.replicate 256 7).length ≤ 4294967296 ∧
      (write_uf2 (List.replicate 256 7) 0).bind read_uf2 =
        Except.ok (List.replicate 256 7) :=
  ⟨by decide, by decide, uf2_round_trip (List.replicate 256 7) 0 (by decide) (by decide)⟩

/-! Claim C4: the journal checksum. -/

theorem range_foldl_slice (data : List Nat) (f : Nat → Nat → Nat) :
    ∀ (k off acc : Nat), off + k ≤ data.length →
      (List.range k).foldl (fun h i => f h (byteAt data (off + i))) acc =
        ((data.drop off).take k).foldl f acc := by
  intro k
  induction k with
  | zero => intro off acc _; simp
  | succ m ih =>
    intro off acc hle
    rw [List.range_succ_eq_map]
    simp only [List.foldl_cons, List.foldl_map]
    have hoff : off < data.length := by omega
    have hdrop : data.drop off = byteAt data off :: data.drop (off + 1) := by
      rw [List.drop_eq_getElem_cons hoff]
      simp [byteAt, List.getD_eq_getElem?_getD, List.getElem?_eq_getElem hoff]
    rw [hdrop]
    simp only [List.take_succ_cons, List.foldl_cons, Nat.add_zero]
    have hfun : (fun (h : Nat) i => f h (byteAt data (off + (i + 1)))) =
        (fun (h : Nat) i => f h (byteAt data ((off + 1) + i))) := by
      funext h i
      rw [show off + (i + 1) = (off + 1) + i from by omega]
    rw [hfun, ih (off + 1) (f acc (byteAt data off)) (by omega)]

theorem crc_frame (data data2 : List Nat) (offset : Nat)
    (hagree : ∀ i, i < 2040 → byteAt data (offset + i) = byteAt data2 (offset + i)) :
    calculate_page_crc data offset = calculate_page_crc data2 offset := by
  simp only [calculate_page_crc, PRESET_PAGE_SIZE, PRESET_PAGE_FOOTER_SIZE]
  apply List.foldl_ext
  intro a x hx
  rw [hagree x (List.mem_range.mp hx)]

theorem crcFold_lt (l : List Nat) :
    ∀ acc, acc < 65536 → l.foldl (fun a b => (a * 23 + b) % 65536) acc < 65536 := by
  induction l with
  | nil => intro acc h; simpa
  | cons x xs ih =>
    intro acc _
    simp only [List.foldl_cons]
    exact ih _ (Nat.mod_lt _ (by omega))

/-- Claim C4: calculate_page_crc equals the specified fold (seed 123,
accumulator times 23 plus byte, mod 65536) over exactly the 2040 page-body
bytes at the page offset; it depends only on those bytes — in particular
never on the footer — and its value is a 16-bit quantity.  Being a Lean
function, it is pure by construction. -/
theorem calculate_page_crc_spec (data data2 : List Nat) (offset : Nat)
    (h : offset + 2040 ≤ data.length)
    (hagree : ∀ i, i < 2040 → byteAt data (offset + i) = byteAt data2 (offset + i)) :
    calculate_page_crc data offset = checksumSpec ((data.drop offset).take 2040) ∧
      calculate_page_crc data offset = calculate_page_crc data2 offset ∧
      calculate_page_crc data offset < 65536 := by
  have h1 : calculate_page_crc data offset = checksumSpec ((data.drop offset).take 2040) := by
    simp only [calculate_page_crc, checksumSpec, PRESET_PAGE_SIZE, PRESET_PAGE_FOOTER_SIZE]
    exact range_foldl_slice data (fun acc b => (acc * 23 + b) % 65536) 2040 offset 123 h
  refine ⟨h1, crc_frame data data2 offset hagree, ?_⟩
  rw [h1, checksumSpec]
  exact crcFold_lt _ 123 (by omega)

/-- Witness for claim C4 on a concrete zero page. -/
theorem calculate_page_crc_spec_witness :
    0 + 2040 ≤ (List.replicate 2048 0).length ∧
      (calculate_page_crc (List.replicate 2048 0) 0 =
          checksumSpec (((List.replicate 2048 0).drop 0).take 2040) ∧
        calculate_page_crc (List.replicate 2048 0) 0 =
          calculate_page_crc (List.replicate 2048 0) 0 ∧
        calculate_page_crc (List.replicate 2048 0) 0 < 65536) :=
  ⟨by rw [List.length_replicate]; omega, calculate_page_crc_spec (List.replicate 2048 0)
    (List.replicate 2048 0) 0 (by rw [List.length_replicate]; omega) (fun _ _ => rfl)⟩

/-! Byte positioning lemmas. -/

theorem byteAt_append_right2 (l1 l2 : List Nat) (k j : Nat) (h : j = l1.length + k) :
    byteAt (l1 ++ l2) j = byteAt l2 k := by
  subst h
  simp [byteAt, List.getD_eq_getElem?_getD,
    List.getElem?_append_right (show l1.length ≤ l1.length + k by omega),
    Nat.add_sub_cancel_left]

theorem byteAt_append_left (l1 l2 : List Nat) (k : Nat) (h : k < l1.length) :
    byteAt (l1 ++ l2) k = byteAt l1 k := by
  simp [byteAt, List.getD_eq_getElem?_getD, List.getElem?_append, h]

theorem readU32_append_right (l1 l2 : List Nat) (k j : Nat) (h : j = l1.length + k) :
    readU32 (l1 ++ l2) j = readU32 l2 k := by
  simp only [readU32]
  rw [byteAt_append_right2 l1 l2 k j h,
    byteAt_append_right2 l1 l2 (k + 1) (j + 1) (by omega),
    byteAt_append_right2 l1 l2 (k + 2) (j + 2) (by omega),
    byteAt_append_right2 l1 l2 (k + 3) (j + 3) (by omega)]

theorem readU32_pack32 (x : Nat) (hx : x < 4294967296) : readU32 (pack32 x) 0 = x := by
  have h : readU32 (pack32 x) 0 =
      x % 256 + 256 * (x / 256 % 256) + 65536 * (x / 65536 % 256) +
        16777216 * (x / 16777216 % 256) := rfl
  omega

/-! Footer reading lemmas. -/

theorem mkPage_length (i v s : Nat) : (mkPage i v s).length = 2048 := by
  simp [mkPage, pack32]

theorem read_page_footer_append (pre tail : List Nat) :
    read_page_footer (pre ++ tail) pre.length = read_page_footer tail 0 := by
  simp only [read_page_footer, readU16, readU32, PRESET_PAGE_SIZE, PRESET_PAGE_FOOTER_SIZE,
    PageFooter.mk.injEq, Nat.zero_add]
  refine ⟨?_, ?_, ?_, ?_⟩
  · rw [byteAt_append_right2 pre tail 2040 _ (by omega)]
  · rw [byteAt_append_right2 pre tail 2041 _ (by omega)]
  · rw [byteAt_append_right2 pre tail 2042 _ (by omega),
      byteAt_append_right2 pre tail 2043 _ (by omega)]
  · rw [byteAt_append_right2 pre tail 2044 _ (by omega),
      byteAt_append_right2 pre tail 2045 _ (by omega),
      byteAt_append_right2 pre tail 2046 _ (by omega),
      byteAt_append_right2 pre tail 2047 _ (by omega)]

theorem read_page_footer_append_left (l1 l2 : List Nat) (o : Nat)
    (h : o + 2048 ≤ l1.length) :
    read_page_footer (l1 ++ l2) o = read_page_footer l1 o := by
  simp only [read_page_footer, readU16, readU32, PRESET_PAGE_SIZE, PRESET_PAGE_FOOTER_SIZE,
    PageFooter.mk.injEq]
  refine ⟨?_, ?_, ?_, ?_⟩
  · rw [byteAt_append_left l1 l2 _ (by omega)]
  · rw [byteAt_append_left l1 l2 _ (by omega)]
  · rw [byteAt_append_left l1 l2 _ (by omega), byteAt_append_left l1 l2 _ (by omega)]
  · rw [byteAt_append_left l1 l2 _ (by omega), byteAt_append_left l1 l2 _ (by omega),
      byteAt_append_left l1 l2 _ (by omega), byteAt_append_left l1 l2 _ (by omega)]

theorem read_page_footer_mkPage (i v s : Nat) (hs : s < 4294967296) :
    read_page_footer (mkPage i v s) 0 = ⟨i, v, 0, s⟩ := by
  have h2040 : (2040 : Nat) = (List.replicate 2040 (0 : Nat)).length + 0 := by simp
  simp only [mkPage, read_page_footer, readU16, readU32, PRESET_PAGE_SIZE,
    PRESET_PAGE_FOOTER_SIZE, PageFooter.mk.injEq, Nat.zero_add]
  refine ⟨?_, ?_, ?_, ?_⟩
  · rw [byteAt_append_right2 _ _ 0 2040 (by simp)]
    rfl
  · rw [byteAt_append_right2 _ _ 1 2041 (by simp)]
    rfl
  · rw [byteAt_append_right2 _ _ 2 2042 (by simp), byteAt_append_right2 _ _ 3 2043 (by simp)]
    rfl
  · rw [byteAt_append_right2 _ _ 4 2044 (by simp), byteAt_append_right2 _ _ 5 2045 (by simp),
      byteAt_append_right2 _ _ 6 2046 (by simp), byteAt_append_right2 _ _ 7 2047 (by simp)]
    show readU32 ([i, v, 0, 0] ++ pack32 s) 4 = s
    rw [readU32_append_right [i, v, 0, 0] (pack32 s) 0 4 (by simp)]
    exact readU32_pack32 s hs

/-! The resolver fold. -/

theorem findFold_no_update (data : List Nat) (pidx : Nat) (l : List Nat) :
    ∀ cs off, (∀ o ∈ l, ((read_page_footer data o).idx = pidx ∧
        (read_page_footer data o).version = PRESET_VERSION) →
        (read_page_footer data o).seq ≤ cs) →
      l.foldl (findStep data pidx) (cs, off) = (cs, off) := by
  induction l with
  | nil => intro cs off _; rfl
  | cons o rest ih =>
    intro cs off h
    have hstep : findStep data pidx (cs, off) o = (cs, off) := by
      unfold findStep
      by_cases hc : ((read_page_footer data o).idx = pidx ∧
          (read_page_footer data o).version = PRESET_VERSION)
      · rw [if_pos hc, if_neg]
        have := h o (by simp) hc
        omega
      · rw [if_neg hc]
    simp only [List.foldl_cons, hstep]
    exact ih cs off (fun x hx hcx => h x (by simp [hx]) hcx)

theorem findFold_fst_lt (data : List Nat) (pidx : Nat) (l : List Nat) :
    ∀ cs off B, cs < B → (∀ o ∈ l, ((read_page_footer data o).idx = pidx ∧
        (read_page_footer data o).version = PRESET_VERSION) →
        (read_page_footer data o).seq < B) →
      (l.foldl (findStep data pidx) (cs, off)).1 < B := by
  induction l with
  | nil => intro cs off B hcs _; exact hcs
  | cons o rest ih =>
    intro cs off B hcs h
    simp only [List.foldl_cons]
    have hrest : ∀ x ∈ rest, ((read_page_footer data x).idx = pidx ∧
        (read_page_footer data x).version = PRESET_VERSION) →
        (read_page_footer data x).seq < B := fun x hx hcx => h x (by simp [hx]) hcx
    unfold findStep
    by_cases hc : ((read_page_footer data o).idx = pidx ∧
        (read_page_footer data o).version = PRESET_VERSION)
    · rw [if_pos hc]
      by_cases hlt : cs < (read_page_footer data o).seq
      · rw [if_pos hlt]
        exact ih _ o B (h o (by simp) hc) hrest
      · rw [if_neg hlt]
        exact ih cs off B hcs hrest
    · rw [if_neg hc]
      exact ih cs off B hcs hrest

theorem findFold_select (data : List Nat) (pidx : Nat) (l1 l2 : List Nat) (o : Nat)
    (cs off : Nat)
    (hc : (read_page_footer data o).idx = pidx ∧
      (read_page_footer data o).version = PRESET_VERSION)
    (hcs : cs < (read_page_footer data o).seq)
    (h1 : ∀ x ∈ l1, ((read_page_footer data x).idx = pidx ∧
        (read_page_footer data x).version = PRESET_VERSION) →
        (read_page_footer data x).seq < (read_page_footer data o).seq)
    (h2 : ∀ x ∈ l2, ((read_page_footer data x).idx = pidx ∧
        (read_page_footer data x).version = PRESET_VERSION) →
        (read_page_footer data x).seq ≤ (read_page_footer data o).seq) :
    (l1 ++ o :: l2).foldl (findStep data pidx) (cs, off) =
      ((read_page_footer data o).seq, o) := by
  rw [List.foldl_append]
  have hfst : (l1.foldl (findStep data pidx) (cs, off)).1 < (read_page_footer data o).seq :=
    findFold_fst_lt data pidx l1 cs off _ hcs h1
  simp only [List.foldl_cons]
  have hstep : ∀ acc : Nat × Nat, acc.1 < (read_page_footer data o).seq →
      findStep data pidx acc o = ((read_page_footer data o).seq, o) := by
    intro acc hacc
    simp only [findStep]
    rw [if_pos hc, if_pos hacc]
  rw [hstep _ hfst]
  exact findFold_no_update data pidx l2 _ o h2

/-! Page offset list facts. -/

theorem pageOffsets_sorted (data : List Nat) :
    List.Pairwise (· < ·) (pageOffsets data) := by
  rw [pageOffsets, List.pairwise_map]
  exact (List.pairwise_lt_range _).imp
    (fun hab => Nat.mul_lt_mul_of_pos_right hab (by simp [PRESET_PAGE_SIZE]))

theorem pageOffsets_mem_bound (data : List Nat) (o : Nat)
    (ho : o ∈ pageOffsets data) (h : data.length % PRESET_PAGE_SIZE = 0) :
    o + PRESET_PAGE_SIZE ≤ data.length := by
  simp only [pageOffsets, List.mem_map, List.mem_range, PRESET_PAGE_SIZE] at ho h ⊢
  obtain ⟨k, hk, rfl⟩ := ho
  omega

/-- Claim C5: the resolver.  First part: if a page offset o matches the
slot id and version, has a positive sequence number at least as large as
every matching page's and strictly larger than every earlier matching
page's, then find_sample_offset returns o.  Second part: if every matching
page has sequence number 0 — in particular if no page matches — the
returned offset is the default 0. -/
theorem find_sample_offset_spec (data : List Nat) (index : Nat)
    (_hlen : data.length % PRESET_PAGE_SIZE = 0) :
    (∀ o ∈ pageOffsets data,
      ((read_page_footer data o).idx = PRESET_SAMPLES_IDX + index ∧
        (read_page_footer data o).version = PRESET_VERSION) →
      0 < (read_page_footer data o).seq →
      (∀ x ∈ pageOffsets data,
        ((read_page_footer data x).idx = PRESET_SAMPLES_IDX + index ∧
          (read_page_footer data x).version = PRESET_VERSION) →
        (read_page_footer data x).seq ≤ (read_page_footer data o).seq) →
      (∀ x ∈ pageOffsets data,
        ((read_page_footer data x).idx = PRESET_SAMPLES_IDX + index ∧
          (read_page_footer data x).version = PRESET_VERSION) →
        x < o → (read_page_footer data x).seq < (read_page_footer data o).seq) →
      find_sample_offset data index = o) ∧
    ((∀ x ∈ pageOffsets data,
        ((read_page_footer data x).idx = PRESET_SAMPLES_IDX + index ∧
          (read_page_footer data x).version = PRESET_VERSION) →
        (read_page_footer data x).seq = 0) →
      find_sample_offset data index = 0) := by
  constructor
  · intro o ho hc hpos hmax hfirst
    obtain ⟨l1, l2, hsplit⟩ := List.append_of_mem ho
    have hsort := pageOffsets_sorted data
    rw [hsplit] at hsort
    rw [List.pairwise_append] at hsort
    have hlt : ∀ x ∈ l1, x < o := fun x hx => hsort.2.2 x hx o (by simp)
    have h1 : ∀ x ∈ l1, ((read_page_footer data x).idx = PRESET_SAMPLES_IDX + index ∧
        (read_page_footer data x).version = PRESET_VERSION) →
        (read_page_footer data x).seq < (read_page_footer data o).seq := by
      intro x hx hcx
      exact hfirst x (by rw [hsplit]; simp [hx]) hcx (hlt x hx)
    have h2 : ∀ x ∈ l2, ((read_page_footer data x).idx = PRESET_SAMPLES_IDX + index ∧
        (read_page_footer data x).version = PRESET_VERSION) →
        (read_page_footer data x).seq ≤ (read_page_footer data o).seq := by
      intro x hx hcx
      exact hmax x (by rw [hsplit]; simp [hx]) hcx
    rw [find_sample_offset, hsplit,
      findFold_select data (PRESET_SAMPLES_IDX + index) l1 l2 o 0 0 hc hpos h1 h2]
  · intro hzero
    rw [find_sample_offset,
      findFold_no_update data (PRESET_SAMPLES_IDX + index) (pageOffsets data) 0 0
        (fun x hx hcx => by rw [hzero x hx hcx])]

/-- Witness for claim C5 on the four-page image img5: the slot-128 page
with the maximal sequence number 7 sits at offset 2048 and is selected,
despite the unrelated slot-127 page having sequence number 9. -/
theorem find_sample_offset_spec_witness : find_sample_offset img5 0 = 2048 := by
  have hA : (mkPage 128 2 3).length = 2048 := mkPage_length _ _ _
  have hAB : (mkPage 128 2 3 ++ mkPage 128 2 7).length = 4096 := by
    simp [mkPage_length]
  have hABC : (mkPage 128 2 3 ++ mkPage 128 2 7 ++ mkPage 127 2 9).length = 6144 := by
    simp [mkPage_length]
  have hlen5 : img5.length = 8192 := by
    simp [img5, mkPage_length]
  have f0 : read_page_footer img5 0 = ⟨128, 2, 0, 3⟩ := by
    rewrite [img5, read_page_footer_append_left _ _ 0 (by rw [hABC]; omega),
      read_page_footer_append_left _ _ 0 (by rw [hAB]; omega),
      read_page_footer_append_left _ _ 0 (by rw [hA])]
    exact read_page_footer_mkPage 128 2 3 (by omega)
  have f1 : read_page_footer img5 2048 = ⟨128, 2, 0, 7⟩ := by
    rewrite [img5, read_page_footer_append_left _ _ 2048 (by rw [hABC]; omega),
      read_page_footer_append_left _ _ 2048 (by rw [hAB]), ← hA,
      read_page_footer_append]
    exact read_page_footer_mkPage 128 2 7 (by omega)
  have f2 : read_page_footer img5 4096 = ⟨127, 2, 0, 9⟩ := by
    rewrite [img5, read_page_footer_append_left _ _ 4096 (by rw [hABC]), ← hAB,
      read_page_footer_append]
    exact read_page_footer_mkPage 127 2 9 (by omega)
  have f3 : read_page_footer img5 6144 = ⟨128, 2, 0, 5⟩ := by
    rewrite [img5, ← hABC, read_page_footer_append]
    exact read_page_footer_mkPage 128 2 5 (by omega)
  have hpo : pageOffsets img5 = [0, 2048, 4096, 6144] := by
    rw [pageOffsets, hlen5]
    rfl
  have hmod : img5.length % PRESET_PAGE_SIZE = 0 := by rw [hlen5]; rfl
  apply (find_sample_offset_spec img5 0 hmod).1 2048
  · rw [hpo]; simp
  · rw [f1]
    exact ⟨rfl, rfl⟩
  · rw [f1]
    decide
  · intro x hx hcx
    rw [hpo] at hx
    rw [f1]
    fin_cases hx
    · rw [f0]; decide
    · rw [f1]
    · rw [f2] at hcx
      exact absurd hcx (by decide)
    · rw [f3]; decide
  · intro x hx hcx hxlt
    rw [hpo] at hx
    rw [f1]
    fin_cases hx
    · rw [f0]; decide
    · exact absurd hxlt (by decide)
    · rw [f2] at hcx
      exact absurd hcx (by decide)
    · exact absurd hxlt (by decide)

/-! Claim C7: the waveform thumbnail. -/

theorem peakOfBlock_even : ∀ b : List Nat, b.length % 2 = 0 →
    peakOfBlock b = some (peakF b)
  | [], _ => rfl
  | [x], h => by simp at h
  | lo :: hi :: rest, h => by
    have hr : rest.length % 2 = 0 := by
      simp only [List.length_cons] at h
      omega
    simp only [peakOfBlock, peakF, peakOfBlock_even rest hr]
    rfl

theorem packPairs_even : ∀ l : List Nat, l.length % 2 = 0 →
    packPairs l = some (packF l)
  | [], _ => rfl
  | [x], h => by simp at h
  | s0 :: s1 :: rest, h => by
    have hr : rest.length % 2 = 0 := by
      simp only [List.length_cons] at h
      omega
    simp only [packPairs, packF, packPairs_even rest hr]
    rfl

theorem packF_length : ∀ l : List Nat, l.length % 2 = 0 →
    (packF l).length = l.length / 2
  | [], _ => rfl
  | [x], h => by simp at h
  | s0 :: s1 :: rest, h => by
    have hr : rest.length % 2 = 0 := by
      simp only [List.length_cons] at h
      omega
    simp only [packF, List.length_cons, packF_length rest hr]
    omega

theorem packF_getD : ∀ l : List Nat, l.length % 2 = 0 → ∀ k,
    (packF l).getD k 0 =
      max (min (l.getD (2 * k) 0) 15) 0 + 16 * max (min (l.getD (2 * k + 1) 0) 15) 0
  | [], _, k => by simp [packF]
  | [x], h, k => by simp at h
  | s0 :: s1 :: rest, h, k => by
    have hr : rest.length % 2 = 0 := by
      simp only [List.length_cons] at h
      omega
    cases k with
    | zero => simp [packF]
    | succ j =>
      have h1 : 2 * (j + 1) = 2 * j + 1 + 1 := by omega
      have h2 : 2 * (j + 1) + 1 = 2 * j + 1 + 1 + 1 := by omega
      simp only [packF, List.getD_cons_succ, h1, h2]
      exact packF_getD rest hr j

theorem mapM_option_some {α β : Type} (f : α → Option β) (g : α → β) :
    ∀ l : List α, (∀ x ∈ l, f x = some (g x)) → l.mapM f = some (l.map g) := by
  intro l
  induction l with
  | nil => intro _; rfl
  | cons a l ih =>
    intro h
    rw [List.mapM_cons, h a (by simp), ih (fun x hx => h x (by simp [hx]))]
    rfl

theorem getD_map_list (g : List Nat → Nat) (l : List (List Nat)) (j : Nat)
    (h : j < l.length) :
    (l.map g).getD j 0 = g (l.getD j []) := by
  rw [List.getD_eq_getElem?_getD, List.getD_eq_getElem?_getD, List.getElem?_map,
    List.getElem?_eq_getElem h]
  rfl

theorem getD_default_of_ge {α : Type} (l : List α) (j : Nat) (d : α) (h : l.length ≤ j) :
    l.getD j d = d := by
  rw [List.getD_eq_getElem?_getD, List.getElem?_eq_none (by omega)]
  rfl

theorem byteAt_append_pad (ps : List Nat) (m k : Nat) :
    byteAt (ps ++ List.replicate m 0) k = if k < ps.length then byteAt ps k else 0 := by
  by_cases h : k < ps.length
  · rw [if_pos h]
    exact byteAt_append_left ps _ k h
  · rw [if_neg h]
    rw [byteAt_append_right2 ps _ (k - ps.length) k (by omega)]
    simp only [byteAt, List.getD_eq_getElem?_getD, List.getElem?_replicate]
    split <;> rfl

/-- Claim C7: on sample buffers of the shape the converter produces (an
even number of complete 1024-sample windows, at most 2048 windows — the
real input is always exactly 2048 windows), create_waveform succeeds, the
output is exactly 1024 bytes, and byte k packs the clamped quantized levels
of windows 2k and 2k+1 as level(2k) + 16 * level(2k+1); the quantization
boundaries are floor-based: peak 1023 gives level 0, peak 1024 gives level
1, and peak 16383 gives level 15. -/
theorem create_waveform_spec (data : List Nat)
    (h1 : data.length % 4096 = 0) (h2 : data.length ≤ 4194304) :
    ∃ w, create_waveform data = some w ∧ w.length = 1024 ∧
      (∀ k, k < 1024 →
        byteAt w k =
          quantLevel (peakAt data (2 * k)) + 16 * quantLevel (peakAt data (2 * k + 1))) ∧
      quantLevel 1023 = 0 ∧ quantLevel 1024 = 1 ∧ quantLevel 16383 = 15 := by
  have hbs : SAMPLE_WAVEFORM_BLOCKSIZE * 2 = 2048 := rfl
  have hmod : data.length % 2048 = 0 := by omega
  have hfull : ∀ b ∈ chunkList (SAMPLE_WAVEFORM_BLOCKSIZE * 2) data, b.length = 2048 := by
    rw [hbs]
    exact chunkList_full 2048 data hmod
  have hflat : (chunkList (SAMPLE_WAVEFORM_BLOCKSIZE * 2) data).flatten = data := by
    rw [hbs]
    exact chunkList_flatten 2048 data (by omega)
  have hcount : data.length = 2048 * (chunkList (SAMPLE_WAVEFORM_BLOCKSIZE * 2) data).length := by
    have hx := flatten_const_length 2048 (chunkList (SAMPLE_WAVEFORM_BLOCKSIZE * 2) data) hfull
    rw [hflat] at hx
    exact hx
  have heven : (chunkList (SAMPLE_WAVEFORM_BLOCKSIZE * 2) data).length % 2 = 0 := by omega
  have hwin : (chunkList (SAMPLE_WAVEFORM_BLOCKSIZE * 2) data).length ≤ 2048 := by omega
  have hmapM : (chunkList (SAMPLE_WAVEFORM_BLOCKSIZE * 2) data).mapM
      (fun b => (peakOfBlock b).map (fun p => p / 1024)) =
      some ((chunkList (SAMPLE_WAVEFORM_BLOCKSIZE * 2) data).map (fun b => peakF b / 1024)) := by
    apply mapM_option_some
    intro b hb
    rw [peakOfBlock_even b (by rw [hfull b hb])]
    rfl
  have hwslen : ((chunkList (SAMPLE_WAVEFORM_BLOCKSIZE * 2) data).map
      (fun b => peakF b / 1024)).length =
      (chunkList (SAMPLE_WAVEFORM_BLOCKSIZE * 2) data).length := List.length_map _ _
  have hpack : packPairs ((chunkList (SAMPLE_WAVEFORM_BLOCKSIZE * 2) data).map
      (fun b => peakF b / 1024)) =
      some (packF ((chunkList (SAMPLE_WAVEFORM_BLOCKSIZE * 2) data).map
        (fun b => peakF b / 1024))) :=
    packPairs_even _ (by rw [hwslen]; exact heven)
  have hpslen : (packF ((chunkList (SAMPLE_WAVEFORM_BLOCKSIZE * 2) data).map
      (fun b => peakF b / 1024))).length =
      (chunkList (SAMPLE_WAVEFORM_BLOCKSIZE * 2) data).length / 2 := by
    rw [packF_length _ (by rw [hwslen]; exact heven), hwslen]
  refine ⟨packF ((chunkList (SAMPLE_WAVEFORM_BLOCKSIZE * 2) data).map
      (fun b => peakF b / 1024)) ++
      List.replicate (1024 - (packF ((chunkList (SAMPLE_WAVEFORM_BLOCKSIZE * 2) data).map
        (fun b => peakF b / 1024))).length) 0, ?_, ?_, ?_, by decide, by decide, by decide⟩
  · rw [create_waveform]
    rw [hmapM]
    show (packPairs _).bind _ = _
    rw [hpack]
    show (if _ ≤ 1024 then _ else none) = _
    rw [if_pos (by omega)]
  · simp only [List.length_append, List.length_replicate]
    omega
  · intro k hk
    rw [byteAt_append_pad]
    by_cases hkp : k < (packF ((chunkList (SAMPLE_WAVEFORM_BLOCKSIZE * 2) data).map
        (fun b => peakF b / 1024))).length
    · rw [if_pos hkp]
      show (packF _).getD k 0 = _
      rw [packF_getD _ (by rw [hwslen]; exact heven) k]
      have h2k : 2 * k < (chunkList (SAMPLE_WAVEFORM_BLOCKSIZE * 2) data).length := by omega
      have h2k1 : 2 * k + 1 < (chunkList (SAMPLE_WAVEFORM_BLOCKSIZE * 2) data).length := by
        omega
      rw [getD_map_list _ _ _ h2k, getD_map_list _ _ _ h2k1]
      rfl
    · rw [if_neg hkp]
      have h2k : (chunkList (SAMPLE_WAVEFORM_BLOCKSIZE * 2) data).length ≤ 2 * k := by omega
      have hnil1 : (chunkList (SAMPLE_WAVEFORM_BLOCKSIZE * 2) data).getD (2 * k) [] = [] :=
        getD_default_of_ge _ _ _ (by omega)
      have hnil2 : (chunkList (SAMPLE_WAVEFORM_BLOCKSIZE * 2) data).getD (2 * k + 1) [] = [] :=
        getD_default_of_ge _ _ _ (by omega)
      rw [peakAt, peakAt, hnil1, hnil2]
      rfl

/-- Witness for claim C7 at the concrete all-zero two-window buffer. -/
theorem create_waveform_spec_witness :
    (List.replicate 4096 0).length % 4096 = 0 ∧ (List.replicate 4096 0).length ≤ 4194304 ∧
      ∃ w, create_waveform (List.replicate 4096 0) = some w ∧ w.length = 1024 ∧
        (∀ k, k < 1024 →
          byteAt w k = quantLevel (peakAt (List.replicate 4096 0) (2 * k)) +
            16 * quantLevel (peakAt (List.replicate 4096 0) (2 * k + 1))) ∧
        quantLevel 1023 = 0 ∧ quantLevel 1024 = 1 ∧ quantLevel 16383 = 15 :=
  ⟨by rw [List.length_replicate], by rw [List.length_replicate]; omega,
    create_waveform_spec (List.replicate 4096 0) (by rw [List.length_replicate])
      (by rw [List.length_replicate]; omega)⟩

/-! Claim C8: the journal patch writes only the record fields and the
footer checksum. -/

theorem pack16_length (x : Nat) : (pack16 x).length = 2 := rfl

theorem byteAt_take (l : List Nat) (n m : Nat) (h : m < n) :
    byteAt (l.take n) m = byteAt l m := by
  simp [byteAt, List.getD_eq_getElem?_getD, List.getElem?_take, h]

theorem byteAt_drop (l : List Nat) (n m : Nat) :
    byteAt (l.drop n) m = byteAt l (n + m) := by
  simp [byteAt, List.getD_eq_getElem?_getD, List.getElem?_drop]

theorem writeBytes_length (dst src : List Nat) (off : Nat)
    (h : off + src.length ≤ dst.length) :
    (writeBytes dst off src).length = dst.length := by
  simp [writeBytes, List.length_append, List.length_take, List.length_drop]
  omega

theorem byteAt_writeBytes_lt (dst src : List Nat) (off j : Nat) (hj : j < off)
    (h : off ≤ dst.length) :
    byteAt (writeBytes dst off src) j = byteAt dst j := by
  have ht : (dst.take off).length = off := by simp [List.length_take]; omega
  rw [writeBytes, byteAt_append_left _ _ j (by rw [List.length_append, ht]; omega),
    byteAt_append_left _ _ j (by rw [ht]; omega)]
  exact byteAt_take dst off j hj

theorem byteAt_writeBytes_mid (dst src : List Nat) (off j : Nat) (hj1 : off ≤ j)
    (hj2 : j < off + src.length) (h : off ≤ dst.length) :
    byteAt (writeBytes dst off src) j = byteAt src (j - off) := by
  have ht : (dst.take off).length = off := by simp [List.length_take]; omega
  rw [writeBytes, byteAt_append_left _ _ j (by rw [List.length_append, ht]; omega),
    byteAt_append_right2 _ _ (j - off) j (by rw [ht]; omega)]

theorem byteAt_writeBytes_ge (dst src : List Nat) (off j : Nat)
    (hj : off + src.length ≤ j) (h : off + src.length ≤ dst.length) :
    byteAt (writeBytes dst off src) j = byteAt dst j := by
  have ht : (dst.take off).length = off := by simp [List.length_take]; omega
  have houter : (dst.take off ++ src).length = off + src.length := by
    rw [List.length_append, ht]
  rw [writeBytes, byteAt_append_right2 (dst.take off ++ src) _ (j - (off + src.length)) j
    (by rw [houter]; omega), byteAt_drop]
  congr 1
  omega

theorem findFold_snd_mem (data : List Nat) (pidx : Nat) (l : List Nat) :
    ∀ cs off, (l.foldl (findStep data pidx) (cs, off)).2 = off ∨
      (l.foldl (findStep data pidx) (cs, off)).2 ∈ l := by
  induction l with
  | nil => intro cs off; left; rfl
  | cons o rest ih =>
    intro cs off
    simp only [List.foldl_cons]
    have hstep : findStep data pidx (cs, off) o = (cs, off) ∨
        findStep data pidx (cs, off) o = ((read_page_footer data o).seq, o) := by
      simp only [findStep]
      by_cases hc : ((read_page_footer data o).idx = pidx ∧
          (read_page_footer data o).version = PRESET_VERSION)
      · rw [if_pos hc]
        by_cases hlt : (cs, off).1 < (read_page_footer data o).seq
        · rw [if_pos hlt]; right; rfl
        · rw [if_neg hlt]; left; rfl
      · rw [if_neg hc]; left; rfl
    rcases hstep with h | h
    · rw [h]
      rcases ih cs off with h2 | h2
      · left; exact h2
      · right; simp [h2]
    · rw [h]
      rcases ih (read_page_footer data o).seq o with h2 | h2
      · right; rw [h2]; simp
      · right; simp [h2]

theorem find_sample_offset_mem (data : List Nat) (index : Nat) (h0 : 0 < data.length) :
    find_sample_offset data index ∈ pageOffsets data := by
  have h00 : (0 : Nat) ∈ pageOffsets data := by
    simp only [pageOffsets, List.mem_map, List.mem_range]
    refine ⟨0, ?_, by simp⟩
    simp only [PRESET_PAGE_SIZE]
    omega
  rcases findFold_snd_mem data (PRESET_SAMPLES_IDX + index) (pageOffsets data) 0 0 with h | h
  · rw [find_sample_offset, h]; exact h00
  · rw [find_sample_offset]; exact h

theorem sampleRecordBytes_length (sample_len : Int) (waveform : List Nat)
    (splits : List Int) (hs : 8 ≤ splits.length) :
    (sampleRecordBytes sample_len waveform splits).length = 1060 := by
  have hmap : ∀ c ∈ (splits.take 8).map pack32i, c.length = 4 := by
    intro c hc
    obtain ⟨x, _, rfl⟩ := List.mem_map.mp hc
    rfl
  have hflatten := flatten_const_length 4 ((splits.take 8).map pack32i) hmap
  have hp32 : (pack32i sample_len).length = 4 := rfl
  simp only [sampleRecordBytes, List.length_append, List.length_take,
    List.length_replicate, hflatten, List.length_map, hp32]
  omega

/-- Claim C8: update_sample_page returns a new buffer of the same length in
which only the 1060 record bytes (waveform, eight splits, sample length) at
the located page offset and the two footer checksum bytes differ from the
input: all bytes outside the located page, the bytes between the record and
the checksum field (notes, pitched, loop, padding, footer slot id and
version) and the footer sequence number are unchanged; the record bytes
equal the packed record, the checksum bytes hold the little-endian
16-bit page checksum recomputed over the updated page body, and the footer
slot id, version and sequence number read back unchanged.  The input list
itself is never mutated, the result being a fresh value. -/
theorem update_sample_page_spec (data : List Nat) (index : Nat) (sample_len : Int)
    (waveform : List Nat) (splits : List Int)
    (hlen : data.length % PRESET_PAGE_SIZE = 0) (h0 : 0 < data.length)
    (hs : splits.length = 8) :
    (update_sample_page data index sample_len waveform splits).length = data.length ∧
    (∀ j, (j < find_sample_offset data index ∨
        find_sample_offset data index + 2048 ≤ j) →
      byteAt (update_sample_page data index sample_len waveform splits) j = byteAt data j) ∧
    (∀ j, find_sample_offset data index + 1060 ≤ j →
      j < find_sample_offset data index + 2042 →
      byteAt (update_sample_page data index sample_len waveform splits) j = byteAt data j) ∧
    (∀ j, find_sample_offset data index + 2044 ≤ j →
      byteAt (update_sample_page data index sample_len waveform splits) j = byteAt data j) ∧
    (∀ j, j < 1060 →
      byteAt (update_sample_page data index sample_len waveform splits)
          (find_sample_offset data index + j) =
        byteAt (sampleRecordBytes sample_len waveform splits) j) ∧
    byteAt (update_sample_page data index sample_len waveform splits)
        (find_sample_offset data index + 2042) =
      calculate_page_crc (update_sample_page data index sample_len waveform splits)
        (find_sample_offset data index) % 256 ∧
    byteAt (update_sample_page data index sample_len waveform splits)
        (find_sample_offset data index + 2043) =
      calculate_page_crc (update_sample_page data index sample_len waveform splits)
        (find_sample_offset data index) / 256 % 256 ∧
    (read_page_footer (update_sample_page data index sample_len waveform splits)
        (find_sample_offset data index)).idx =
      (read_page_footer data (find_sample_offset data index)).idx ∧
    (read_page_footer (update_sample_page data index sample_len waveform splits)
        (find_sample_offset data index)).version =
      (read_page_footer data (find_sample_offset data index)).version ∧
    (read_page_footer (update_sample_page data index sample_len waveform splits)
        (find_sample_offset data index)).seq =
      (read_page_footer data (find_sample_offset data index)).seq := by
  have ho : find_sample_offset data index ∈ pageOffsets data :=
    find_sample_offset_mem data index h0
  have hbound := pageOffsets_mem_bound data _ ho hlen
  have hb2048 : find_sample_offset data index + 2048 ≤ data.length := by
    simp only [PRESET_PAGE_SIZE] at hbound
    omega
  have hrl : (sampleRecordBytes sample_len waveform splits).length = 1060 :=
    sampleRecordBytes_length _ _ _ (by omega)
  have hba_len : (writeBytes data (find_sample_offset data index)
      (sampleRecordBytes sample_len waveform splits)).length = data.length :=
    writeBytes_length _ _ _ (by rw [hrl]; omega)
  have hee : find_sample_offset data index +
      (PRESET_PAGE_SIZE - PRESET_PAGE_FOOTER_SIZE) + 2 =
      find_sample_offset data index + 2042 := by
    simp only [PRESET_PAGE_SIZE, PRESET_PAGE_FOOTER_SIZE]
  have hupd : update_sample_page data index sample_len waveform splits =
      writeBytes (writeBytes data (find_sample_offset data index)
          (sampleRecordBytes sample_len waveform splits))
        (find_sample_offset data index + 2042)
        (pack16 (calculate_page_crc (writeBytes data (find_sample_offset data index)
          (sampleRecordBytes sample_len waveform splits))
          (find_sample_offset data index))) := by
    rw [← hee]
    rfl
  have hlt2 : ∀ j, j < find_sample_offset data index →
      byteAt (update_sample_page data index sample_len waveform splits) j = byteAt data j := by
    intro j hj
    rw [hupd, byteAt_writeBytes_lt _ _ _ j (by omega) (by rw [hba_len]; omega),
      byteAt_writeBytes_lt _ _ _ j hj (by omega)]
  have hge2 : ∀ j, find_sample_offset data index + 2044 ≤ j →
      byteAt (update_sample_page data index sample_len waveform splits) j = byteAt data j := by
    intro j hj
    rw [hupd, byteAt_writeBytes_ge _ _ _ j (by rw [pack16_length]; omega)
        (by rw [pack16_length, hba_len]; omega),
      byteAt_writeBytes_ge _ _ _ j (by rw [hrl]; omega) (by rw [hrl]; omega)]
  have hmid : ∀ j, j < 1060 →
      byteAt (update_sample_page data index sample_len waveform splits)
        (find_sample_offset data index + j) =
      byteAt (sampleRecordBytes sample_len waveform splits) j := by
    intro j hj
    rw [hupd, byteAt_writeBytes_lt _ _ _ _ (by omega) (by rw [hba_len]; omega),
      byteAt_writeBytes_mid _ _ _ _ (by omega) (by rw [hrl]; omega) (by omega)]
    congr 1
    omega
  have hkeep : ∀ j, find_sample_offset data index + 1060 ≤ j →
      j < find_sample_offset data index + 2042 →
      byteAt (update_sample_page data index sample_len waveform splits) j = byteAt data j := by
    intro j h1 h2
    rw [hupd, byteAt_writeBytes_lt _ _ _ _ (by omega) (by rw [hba_len]; omega),
      byteAt_writeBytes_ge _ _ _ _ (by rw [hrl]; omega) (by rw [hrl]; omega)]
  have hcrc_eq : calculate_page_crc
      (update_sample_page data index sample_len waveform splits)
      (find_sample_offset data index) =
      calculate_page_crc (writeBytes data (find_sample_offset data index)
        (sampleRecordBytes sample_len waveform splits)) (find_sample_offset data index) := by
    apply crc_frame
    intro i hi
    rw [hupd, byteAt_writeBytes_lt _ _ _ _ (by omega) (by rw [hba_len]; omega)]
  refine ⟨?_, ?_, hkeep, hge2, hmid, ?_, ?_, ?_, ?_, ?_⟩
  · rw [hupd, writeBytes_length _ _ _ (by rw [pack16_length, hba_len]; omega), hba_len]
  · intro j hj
    rcases hj with hj | hj
    · exact hlt2 j hj
    · exact hge2 j (by omega)
  · rw [hcrc_eq, hupd,
      byteAt_writeBytes_mid _ _ _ _ (by omega) (by rw [pack16_length]; omega) (by omega),
      Nat.sub_self]
    rfl
  · rw [hcrc_eq, hupd,
      byteAt_writeBytes_mid _ _ _ _ (by omega) (by rw [pack16_length]; omega) (by omega)]
    rw [show find_sample_offset data index + 2043 -
        (find_sample_offset data index + 2042) = 1 by omega]
    rfl
  · simp only [read_page_footer]
    have he : find_sample_offset data index +
        (PRESET_PAGE_SIZE - PRESET_PAGE_FOOTER_SIZE) =
        find_sample_offset data index + 2040 := by
      simp only [PRESET_PAGE_SIZE, PRESET_PAGE_FOOTER_SIZE]
    rw [he]
    exact hkeep _ (by omega) (by omega)
  · simp only [read_page_footer]
    have he : find_sample_offset data index +
        (PRESET_PAGE_SIZE - PRESET_PAGE_FOOTER_SIZE) + 1 =
        find_sample_offset data index + 2041 := by
      simp only [PRESET_PAGE_SIZE, PRESET_PAGE_FOOTER_SIZE]
    rw [he]
    exact hkeep _ (by omega) (by omega)
  · simp only [read_page_footer, readU32]
    have he : find_sample_offset data index +
        (PRESET_PAGE_SIZE - PRESET_PAGE_FOOTER_SIZE) + 4 =
        find_sample_offset data index + 2044 := by
      simp only [PRESET_PAGE_SIZE, PRESET_PAGE_FOOTER_SIZE]
    rw [he]
    rw [hge2 _ (by omega), hge2 _ (by omega), hge2 _ (by omega), hge2 _ (by omega)]

/-- Witness for claim C8 on a one-page zero image. -/
theorem update_sample_page_spec_witness :
    (List.replicate 2048 0).length % PRESET_PAGE_SIZE = 0 ∧
      0 < (List.replicate 2048 0).length ∧
      (List.replicate (8 : Nat) (0 : Int)).length = 8 ∧
      (update_sample_page (List.replicate 2048 0) 0 0 (List.replicate 1024 0)
        (List.replicate 8 0)).length = (List.replicate 2048 0).length :=
  ⟨by rw [List.length_replicate]; rfl,
   by rw [List.length_replicate]; omega,
   by rw [List.length_replicate],
   (update_sample_page_spec (List.replicate 2048 0) 0 0 (List.replicate 1024 0)
      (List.replicate 8 0) (by rw [List.length_replicate]; rfl)
      (by rw [List.length_replicate]; omega) (by rw [List.length_replicate])).1⟩

/-! Claim C9: the WAV source contract. -/

theorem padding_flatten (n : Nat) :
    (List.replicate n SAMPLE_PADDING).flatten = List.replicate (2 * n) 255 := by
  induction n with
  | zero => rfl
  | succ k ih =>
    rw [List.replicate_succ, List.flatten_cons, ih]
    rw [show 2 * (k + 1) = 2 * k + 1 + 1 by omega, List.replicate_succ, List.replicate_succ]
    rfl

theorem byteAt_replicate (m a k : Nat) (h : k < m) :
    byteAt (List.replicate m a) k = a := by
  simp [byteAt, List.getD_eq_getElem?_getD, List.getElem?_replicate, h]

/-- Claim C9: read_wav fails exactly when the stream is not mono 16-bit
32 kHz uncompressed pulse-code modulation or its frame count exceeds the
fixed capacity; every accepted input yields the original frame count
together with a buffer padded to the full fixed byte length with 0xff
fill bytes. -/
theorem read_wav_spec (f : WavFile) (hf : f.frames.length = 2 * f.nframes) :
    ((∃ e, read_wav f = .error e) ↔
      (f.nchannels ≠ 1 ∨ f.sampwidth ≠ 2 ∨ f.framerate ≠ 32000 ∨
        SAMPLE_COUNT < f.nframes ∨ f.comptype ≠ wavCompNone)) ∧
    (f.nchannels = 1 → f.sampwidth = 2 → f.framerate = 32000 →
      f.nframes ≤ SAMPLE_COUNT → f.comptype = wavCompNone →
      read_wav f = .ok (f.frames ++
        (List.replicate (SAMPLE_COUNT - f.nframes) SAMPLE_PADDING).flatten, f.nframes) ∧
      (f.frames ++
        (List.replicate (SAMPLE_COUNT - f.nframes) SAMPLE_PADDING).flatten).length =
        2 * SAMPLE_COUNT ∧
      (∀ j, f.frames.length ≤ j → j < 2 * SAMPLE_COUNT →
        byteAt (f.frames ++
          (List.replicate (SAMPLE_COUNT - f.nframes) SAMPLE_PADDING).flatten) j = 255)) := by
  constructor
  · constructor
    · rintro ⟨e, he⟩
      by_contra hno
      push_neg at hno
      obtain ⟨h1, h2, h3, h4, h5⟩ := hno
      rw [read_wav, if_neg (by simp [h1]), if_neg (by simp [h2]), if_neg (by simp [h3]),
        if_neg (by omega), if_neg (by simp [h5])] at he
      cases he
    · intro hcond
      rw [read_wav]
      split_ifs with h1 h2 h3 h4 h5
      · exact ⟨errMono, rfl⟩
      · exact ⟨err16bit, rfl⟩
      · exact ⟨err32kHz, rfl⟩
      · exact ⟨errMaxSamples, rfl⟩
      · exact ⟨errCompressed, rfl⟩
      · rcases hcond with hc | hc | hc | hc | hc
        · exact absurd hc h1
        · exact absurd hc h2
        · exact absurd hc h3
        · exact absurd hc (by omega)
        · exact absurd hc h5
  · intro h1 h2 h3 h4 h5
    have hok : read_wav f = .ok (f.frames ++
        (List.replicate (SAMPLE_COUNT - f.nframes) SAMPLE_PADDING).flatten, f.nframes) := by
      rw [read_wav, if_neg (by simp [h1]), if_neg (by simp [h2]), if_neg (by simp [h3]),
        if_neg (by omega), if_neg (by simp [h5])]
    have hpadlen : ((List.replicate (SAMPLE_COUNT - f.nframes) SAMPLE_PADDING).flatten).length =
        2 * (SAMPLE_COUNT - f.nframes) := by
      rw [padding_flatten, List.length_replicate]
    refine ⟨hok, ?_, ?_⟩
    · rw [List.length_append, hpadlen, hf]
      omega
    · intro j hj1 hj2
      rw [byteAt_append_right2 f.frames _ (j - f.frames.length) j (by omega),
        padding_flatten]
      apply byteAt_replicate
      omega

/-- Witness for claim C9 on a one-frame mono file. -/
theorem read_wav_spec_witness :
    (WavFile.mk 1 2 32000 1 wavCompNone [0, 0]).frames.length =
        2 * (WavFile.mk 1 2 32000 1 wavCompNone [0, 0]).nframes ∧
      ∃ buf, read_wav (WavFile.mk 1 2 32000 1 wavCompNone [0, 0]) = .ok (buf, 1) ∧
        buf.length = 2 * SAMPLE_COUNT := by
  refine ⟨rfl, ?_⟩
  obtain ⟨hok, hlen, _⟩ :=
    (read_wav_spec (WavFile.mk 1 2 32000 1 wavCompNone [0, 0]) rfl).2 rfl rfl rfl
      (by decide) rfl
  exact ⟨_, hok, hlen⟩

end PlinkyConvert
